import Mathlib

/- Verification development for the real-time audio / conversation layer of the
Dhaka traffic assistant web application.

The definitions below are a shallow embedding, translated from the TypeScript
source files:
  - services/gemini.ts   (PCM decode, downsampling, capture encode,
                          playback scheduling, connection teardown,
                          connectToJhumaLive entry guard)
  - components/LiveTrafficTalk.tsx (transcript-fragment state machine)

Machine floats are modelled as exact rationals: every number the audio code
manipulates here (int16 samples divided by 32768, sums of finitely many such,
clock times) is an exact dyadic rational, so the rational model is faithful.
JavaScript exceptions (RangeError from the Int16Array constructor,
NotSupportedError from createBuffer) are modelled by Option: none means the
call raised. -/

namespace TrafficAssist

/-! ## PCM decode (services/gemini.ts, processPcmData) -/

/-- Signed 16-bit little-endian value of a byte pair, low byte first:
the reinterpretation performed by the Int16Array view over the byte buffer. -/
def int16OfBytes (lo hi : ℕ) : ℤ :=
  let v := lo + 256 * hi
  if v < 32768 then (v : ℤ) else (v : ℤ) - 65536

/-- Contents of the Int16Array view over an even-length byte buffer:
consecutive byte pairs, little endian. A trailing odd byte never reaches this
function (the constructor raises first, see processPcmData). -/
def bytesToInt16List : List ℕ → List ℤ
  | lo :: hi :: rest => int16OfBytes lo hi :: bytesToInt16List rest
  | _ => []

/-- Shallow embedding of processPcmData (services/gemini.ts).
The source builds an Int16Array view over data.buffer: per EcmaScript this
raises a RangeError when the byte length is not a multiple of 2 (modelled as
none). It then computes frameCount = dataInt16.length / numChannels and calls
ctx.createBuffer, which raises NotSupportedError when the frame count is zero
(also none). Otherwise channel c sample i is dataInt16[i * numChannels + c]
divided by 32768. -/
def processPcmData (data : List ℕ) (numChannels : ℕ) : Option (List (List ℚ)) :=
  if data.length % 2 ≠ 0 then none
  else
    let dataInt16 := bytesToInt16List data
    let frameCount := dataInt16.length / numChannels
    if frameCount = 0 then none
    else
      some ((List.range numChannels).map (fun channel =>
        (List.range frameCount).map (fun i =>
          ((dataInt16.getD (i * numChannels + channel) 0 : ℤ) : ℚ) / 32768)))

theorem bytesToInt16List_length (data : List ℕ) :
    (bytesToInt16List data).length = data.length / 2 := by
  match data with
  | [] => rfl
  | [_] => simp [bytesToInt16List]
  | lo :: hi :: rest =>
      simp only [bytesToInt16List, List.length_cons]
      rw [bytesToInt16List_length rest]
      omega

theorem bytesToInt16List_getD (data : List ℕ) (k : ℕ) :
    k < (bytesToInt16List data).length →
    (bytesToInt16List data).getD k 0 =
      int16OfBytes (data.getD (2 * k) 0) (data.getD (2 * k + 1) 0) := by
  match data, k with
  | [], k => intro h; simp [bytesToInt16List] at h
  | [b], k => intro h; simp [bytesToInt16List] at h
  | lo :: hi :: rest, 0 => intro _; simp [bytesToInt16List]
  | lo :: hi :: rest, (k + 1) =>
      intro h
      simp only [bytesToInt16List, List.length_cons] at h
      have hk : k < (bytesToInt16List rest).length := by omega
      have ih := bytesToInt16List_getD rest k hk
      have e1 : (lo :: hi :: rest).getD (2 * (k + 1)) 0 = rest.getD (2 * k) 0 := by
        have h1 : 2 * (k + 1) = 2 * k + 1 + 1 := by omega
        rw [h1]; simp [List.getD_cons_succ]
      have e2 : (hi :: rest).getD (2 * (k + 1)) 0 = rest.getD (2 * k + 1) 0 := by
        have h2 : 2 * (k + 1) = 2 * k + 1 + 1 := by omega
        rw [h2]; simp [List.getD_cons_succ]
      simp only [bytesToInt16List, List.getD_cons_succ]
      rw [ih, e1, e2]

/-! ## Capture-side PCM16 encode (services/gemini.ts, scriptProcessor.onaudioprocess) -/

/-- Truncation toward zero applied by JavaScript when a number is stored into
an Int16Array (the ToInt16 abstract operation truncates before wrapping). -/
def jsTrunc (q : ℚ) : ℤ := if 0 ≤ q then ⌊q⌋ else ⌈q⌉

/-- Wrap of an integer into the signed 16-bit range, the modular part of the
ToInt16 abstract operation performed by an Int16Array store. -/
def toInt16Wrap (n : ℤ) : ℤ := (n + 32768) % 65536 - 32768

/-- Shallow embedding of the per-sample conversion in
scriptProcessor.onaudioprocess: the sample is clamped to [-1, 1] via
Math.max(-1, Math.min(1, s)), scaled by 0x8000 when negative and 0x7FFF
otherwise, and stored into an Int16Array (truncate toward zero, wrap). -/
def encodeSample (s : ℚ) : ℤ :=
  let c := max (-1) (min 1 s)
  toInt16Wrap (jsTrunc (if c < 0 then c * 32768 else c * 32767))

/-- Decode of one int16 sample back to a float, as performed by
processPcmData: division by 32768. -/
def decodeSample (v : ℤ) : ℚ := (v : ℚ) / 32768

/-! ## Downsampling (services/gemini.ts, downsampleBuffer) -/

/-- Shallow embedding of downsampleBuffer. The source returns the input
unchanged when the rates are equal; otherwise it computes
ratio = inputRate / outputRate, newLength = Math.round(length / ratio), and
for each output index i averages the input samples with index j satisfying
floor(i * ratio) <= j < floor((i + 1) * ratio) and j < length; when that
window is empty it falls back to the single sample at floor(i * ratio).
Math.round(x) for nonnegative x is floor(x + 1/2). -/
def downsampleBuffer (buffer : List ℚ) (inputRate outputRate : ℚ) : List ℚ :=
  if outputRate = inputRate then buffer
  else
    let ratio := inputRate / outputRate
    let newLength := (⌊(buffer.length : ℚ) / ratio + 1 / 2⌋).toNat
    (List.range newLength).map (fun (i : ℕ) =>
      let offset := (⌊(i : ℚ) * ratio⌋).toNat
      let nextOffset := (⌊((i : ℚ) + 1) * ratio⌋).toNat
      let count := min nextOffset buffer.length - offset
      let sum := ((List.range' offset count).map (fun j => buffer.getD j 0)).sum
      if 0 < count then sum / (count : ℚ) else buffer.getD offset 0)

/-! ## Playback scheduling (services/gemini.ts, onmessage audio and interrupted branches)

The playback state of connectToJhumaLive consists of the mutable
nextStartTime clock position and the set of live AudioBufferSourceNode
objects. Sources are identified by a number; the stopped list records every
source on which stop() has been invoked, in invocation order. -/

structure PlaybackState where
  nextStartTime : ℚ
  active : List ℕ
  stopped : List ℕ
deriving DecidableEq

/-- Shallow embedding of the audio branch of onmessage: the source sets
nextStartTime = max(nextStartTime, outputAudioContext.currentTime), starts a
fresh buffer source at that time, advances nextStartTime by the buffer's
duration and adds the source to the active set. Arguments now and duration are
the clock reading and the decoded buffer's duration; the returned rational is
the time passed to source.start. -/
def enqueueChunk (st : PlaybackState) (srcId : ℕ) (now duration : ℚ) :
    PlaybackState × ℚ :=
  let start := max st.nextStartTime now
  ({ nextStartTime := start + duration,
     active := st.active ++ [srcId],
     stopped := st.stopped }, start)

/-- Shallow embedding of the interrupted branch of onmessage: stop every
active source, clear the set, and reset nextStartTime to 0. -/
def interruptPlayback (st : PlaybackState) : PlaybackState :=
  { nextStartTime := 0,
    active := [],
    stopped := st.stopped ++ st.active }

/-! ## Transcript-fragment state machine (components/LiveTrafficTalk.tsx)

State touched by the onTranscript callback of toggleSession: the transcript
list (React state, updated through functional updaters, hence always acting on
the live list), the two accumulation buffer refs and the two streaming
(live-view) strings. Timestamps are the Date.now() values, in milliseconds;
an item's id is the timestamp at which it was appended. -/

inductive Sender
  | user
  | jhuma
deriving DecidableEq

structure TranscriptItem where
  id : ℤ
  sender : Sender
  text : String
deriving DecidableEq

structure TalkState where
  transcript : List TranscriptItem
  userBuffer : String
  jhumaBuffer : String
  streamingUser : String
  streamingJhuma : String
deriving DecidableEq

def initialTalkState : TalkState :=
  { transcript := [], userBuffer := "", jhumaBuffer := "",
    streamingUser := "", streamingJhuma := "" }

/-- Truthiness of the buf.trim() guards in the onTranscript callback: the
trimmed string is non-empty exactly when some character of buf is not
whitespace, which is the form used here (String.trim itself is stated through
its observable content so that the guard stays computable by the kernel). -/
def trimNonempty (s : String) : Bool :=
  s.data.any (fun c => ! c.isWhitespace)

/-- The isNew duplicate check of the onTranscript callback:
transcript.some(t => t.sender === 'user' && t.text === buf &&
parseInt(t.id) > Date.now() - 2000), negated. Parameter snap is the transcript
list the check runs over and now is Date.now() at the moment of the check. -/
def isNewUtterance (snap : List TranscriptItem) (buf : String) (now : ℤ) : Bool :=
  ! snap.any (fun t =>
      t.sender == Sender.user && t.text == buf && decide (now - 2000 < t.id))

/-- Shallow embedding of one invocation of the onTranscript callback created
in toggleSession. The callback is created once, when the session is started,
and closes over the then-current value of the transcript state variable; that
captured list — snap — is what the duplicate check consults for the whole
session, while appends go through setTranscript's functional updater and hence
act on the live list held in the state. On a non-final fragment the text is
appended to the sender's buffer and mirrored to the streaming view; on a final
fragment the (just-extended) buffer is appended to the transcript when its
trimmed text is non-empty (and, for the user sender, when the duplicate check
passes), and the buffer and streaming view are cleared regardless. -/
def onTranscriptEvent (snap : List TranscriptItem) (st : TalkState)
    (sender : Sender) (text : String) (isFinal : Bool) (now : ℤ) : TalkState :=
  match sender with
  | Sender.user =>
      let buf := st.userBuffer ++ text
      if isFinal then
        let isNew := isNewUtterance snap buf now
        let transcript :=
          if trimNonempty buf && isNew then
            st.transcript ++ [{ id := now, sender := Sender.user, text := buf }]
          else st.transcript
        { st with transcript := transcript, userBuffer := "", streamingUser := "" }
      else
        { st with userBuffer := buf, streamingUser := buf }
  | Sender.jhuma =>
      let buf := st.jhumaBuffer ++ text
      if isFinal then
        let transcript :=
          if trimNonempty buf then
            st.transcript ++ [{ id := now, sender := Sender.jhuma, text := buf }]
          else st.transcript
        { st with transcript := transcript, jhumaBuffer := "", streamingJhuma := "" }
      else
        { st with jhumaBuffer := buf, streamingJhuma := buf }

/-- Run a list of onTranscript invocations in arrival order. Each event is
(sender, text, isFinal, now). -/
def runTranscriptEvents (snap : List TranscriptItem) (st : TalkState) :
    List (Sender × String × Bool × ℤ) → TalkState
  | [] => st
  | (s, t, f, n) :: rest =>
      runTranscriptEvents snap (onTranscriptEvent snap st s t f n) rest

/-- Follows the specification's wording of the deduplication rule, for
comparison with the source: the duplicate check runs against the live
transcript list at finalize time instead of the session-start snapshot. -/
def onTranscriptEventSpec (st : TalkState) (sender : Sender) (text : String)
    (isFinal : Bool) (now : ℤ) : TalkState :=
  match sender with
  | Sender.user =>
      let buf := st.userBuffer ++ text
      if isFinal then
        let isNew := isNewUtterance st.transcript buf now
        let transcript :=
          if trimNonempty buf && isNew then
            st.transcript ++ [{ id := now, sender := Sender.user, text := buf }]
          else st.transcript
        { st with transcript := transcript, userBuffer := "", streamingUser := "" }
      else
        { st with userBuffer := buf, streamingUser := buf }
  | Sender.jhuma => onTranscriptEvent [] st Sender.jhuma text isFinal now

/-- Run a list of onTranscript invocations under the specification's reading
of the deduplication rule. -/
def runTranscriptEventsSpec (st : TalkState) :
    List (Sender × String × Bool × ℤ) → TalkState
  | [] => st
  | (s, t, f, n) :: rest =>
      runTranscriptEventsSpec (onTranscriptEventSpec st s t f n) rest

/-! ## Connection teardown (services/gemini.ts, cleanup / disconnect / onclose)

Observable teardown state of one connectToJhumaLive session: the isCleaningUp
and isSocketOpen flags, the pending playback sources, the two audio contexts,
and counters recording how many times each release side effect actually ran
(the microphone-track stop pass and each AudioContext.close call). -/

inductive CtxState
  | running
  | closed
deriving DecidableEq

/-- Shallow embedding of safeCloseAudioContext: close() is invoked only when
the context is not already closed. Returns the new context state and the
incremented close-call counter. -/
def safeCloseAudioContext (ctx : CtxState) (closeCalls : ℕ) : CtxState × ℕ :=
  if ctx = CtxState.closed then (ctx, closeCalls)
  else (CtxState.closed, closeCalls + 1)

structure ConnState where
  isCleaningUp : Bool
  isSocketOpen : Bool
  activeSources : List ℕ
  stoppedSources : List ℕ
  trackStopRuns : ℕ
  inputCtx : CtxState
  outputCtx : CtxState
  inputCloseCalls : ℕ
  outputCloseCalls : ℕ
deriving DecidableEq

/-- Shallow embedding of cleanup: an early return when isCleaningUp is already
set, otherwise set the guard, mark the socket closed, stop and clear the
pending sources, stop the microphone tracks, and close both audio contexts
through safeCloseAudioContext. -/
def cleanup (st : ConnState) : ConnState :=
  if st.isCleaningUp then st
  else
    let inp := safeCloseAudioContext st.inputCtx st.inputCloseCalls
    let outp := safeCloseAudioContext st.outputCtx st.outputCloseCalls
    { isCleaningUp := true,
      isSocketOpen := false,
      activeSources := [],
      stoppedSources := st.stoppedSources ++ st.activeSources,
      trackStopRuns := st.trackStopRuns + 1,
      inputCtx := inp.1,
      outputCtx := outp.1,
      inputCloseCalls := inp.2,
      outputCloseCalls := outp.2 }

/-- Shallow embedding of the disconnect operation of the returned connection
object: it requests session.close() (which only affects the remote end and
later triggers the onclose event) and awaits cleanup(). -/
def disconnect (st : ConnState) : ConnState := cleanup st

/-- Shallow embedding of the onclose callback: clears isSocketOpen, then runs
cleanup (the onDisconnect notification carries no teardown side effects). -/
def oncloseHandler (st : ConnState) : ConnState :=
  cleanup { st with isSocketOpen := false }

/-! ## Entry guard of connectToJhumaLive (services/gemini.ts)

connectToJhumaLive checks process.env.API_KEY before touching any resource:
when the key is falsy it invokes onError once and returns an object whose four
operations are no-ops; only past that guard does it construct the SDK client,
open the two audio contexts and request the microphone. -/

inductive LiveOp
  | disconnect
  | sendVideoFrame
  | sendText
  | setMuted
deriving DecidableEq

/-- Observable effects an operation of the returned connection object can
have. The inert object returned on a missing key performs none of them. -/
inductive LiveEffect
  | sessionSend
  | sessionClose
  | resourceRelease
  | trackToggle
deriving DecidableEq

/-- Outcome of one connectToJhumaLive call: how many times onError ran,
whether the returned promise rejected, whether the microphone was requested,
how many audio contexts were opened, and the effects each operation of the
returned object performs when invoked. -/
structure ConnectOutcome where
  errorCalls : ℕ
  rejected : Bool
  micAcquired : Bool
  audioContextsOpened : ℕ
  ops : LiveOp → List LiveEffect

/-- Shallow embedding of the head of connectToJhumaLive: the guard on
process.env.API_KEY (falsy when the variable is absent or empty). Parameter
rest is the outcome of the remainder of the function — SDK connect, audio
context construction, microphone acquisition — which the guard bypasses
entirely. -/
def connectToJhumaLive (rest : ConnectOutcome) (apiKey : Option String) :
    ConnectOutcome :=
  if apiKey = none ∨ apiKey = some ("") then
    { errorCalls := 1,
      rejected := false,
      micAcquired := false,
      audioContextsOpened := 0,
      ops := fun _ => [] }
  else rest

/-! ## Claim theorems -/

/-- C9: for every frame and every rate r, downsample(frame, r, r) returns a
frame bit-identical to the input — the operation is a no-op when input and
output rates are equal. -/
theorem downsample_identity (buffer : List ℚ) (r : ℚ) :
    downsampleBuffer buffer r r = buffer := by
  simp [downsampleBuffer]

/-- C10: when the API key is absent from the environment, connectToJhumaLive
never rejects: it invokes the error callback exactly once and resolves with an
inert connection object whose disconnect, sendVideoFrame, sendText and
setMuted operations are all no-ops, and it acquires no microphone stream and
opens no audio context. The quantification over rest states that the remainder
of the function (SDK connect, audio contexts, microphone) is bypassed whatever
it would have done. -/
theorem missing_api_key_inert (rest : ConnectOutcome) :
    (connectToJhumaLive rest none).errorCalls = 1 ∧
    (connectToJhumaLive rest none).rejected = false ∧
    (connectToJhumaLive rest none).micAcquired = false ∧
    (connectToJhumaLive rest none).audioContextsOpened = 0 ∧
    ∀ op : LiveOp, (connectToJhumaLive rest none).ops op = [] := by
  simp [connectToJhumaLive]

/-- C6: the playback pipeline schedules chunks in exactly the order enqueue is
called: each chunk starts at max(current clock time, nextFreeTime) and
advances nextFreeTime by the chunk's duration; with no prior backlog
(nextStartTime at or before the clock) and back-to-back enqueues (the second
arriving before the first chunk ends), the first chunk starts at the enqueue
clock time t0 and the second starts exactly at t0 + d1, nextFreeTime ending at
t0 + d1 + d2 and the active set listing the sources in enqueue order. -/
theorem playback_ordering (st : PlaybackState) (id1 id2 : ℕ)
    (now1 now2 d1 d2 : ℚ) (hbacklog : st.nextStartTime ≤ now1)
    (_hmono : now1 ≤ now2) (hback2back : now2 ≤ now1 + d1) :
    (enqueueChunk st id1 now1 d1).2 = now1 ∧
    (enqueueChunk (enqueueChunk st id1 now1 d1).1 id2 now2 d2).2 = now1 + d1 ∧
    (enqueueChunk (enqueueChunk st id1 now1 d1).1 id2 now2 d2).1.nextStartTime
      = now1 + d1 + d2 ∧
    (enqueueChunk (enqueueChunk st id1 now1 d1).1 id2 now2 d2).1.active
      = st.active ++ [id1, id2] := by
  have h1 : max st.nextStartTime now1 = now1 := max_eq_right hbacklog
  have h2 : max (now1 + d1) now2 = now1 + d1 := max_eq_left hback2back
  simp [enqueueChunk, h1, h2]

/-- C6 witness: durations 1.0 s and 0.5 s enqueued back-to-back from an idle
pipeline; the second chunk starts exactly one second after the first. -/
theorem playback_ordering_witness :
    (enqueueChunk { nextStartTime := 0, active := [], stopped := [] } 0 0 1).2
      = 0 ∧
    (enqueueChunk
        (enqueueChunk { nextStartTime := 0, active := [], stopped := [] }
          0 0 1).1 1 (1 / 2) (1 / 2)).2 = 0 + 1 := by
  have h := playback_ordering { nextStartTime := 0, active := [], stopped := [] }
    0 1 0 (1 / 2) 1 (1 / 2) (by norm_num) (by norm_num) (by norm_num)
  exact ⟨h.1, h.2.1⟩

/-- C7: after the interrupted branch runs, every previously scheduled or
playing source has been stopped, the active-sources set is empty, and the next
chunk enqueued afterwards starts at the current (nonnegative) clock time,
not at the stale pre-interrupt nextFreeTime. -/
theorem interrupt_clears_state (st : PlaybackState) (srcId : ℕ) (now d : ℚ)
    (hnow : 0 ≤ now) :
    (interruptPlayback st).active = [] ∧
    (∀ s, s ∈ st.active → s ∈ (interruptPlayback st).stopped) ∧
    (enqueueChunk (interruptPlayback st) srcId now d).2 = now := by
  refine ⟨rfl, ?_, ?_⟩
  · intro s hs
    simp only [interruptPlayback, List.mem_append]
    exact Or.inr hs
  · simp [enqueueChunk, interruptPlayback, max_eq_right hnow]

/-- C7 witness: a backlog of one active source with nextFreeTime far in the
future (100); after the interrupt the set is empty, the source was stopped,
and a chunk enqueued at clock time 3 starts at 3, not at 100. -/
theorem interrupt_clears_state_witness :
    (interruptPlayback
        { nextStartTime := 100, active := [7], stopped := [] }).active = [] ∧
    7 ∈ (interruptPlayback
        { nextStartTime := 100, active := [7], stopped := [] }).stopped ∧
    (enqueueChunk
        (interruptPlayback { nextStartTime := 100, active := [7], stopped := [] })
        8 3 2).2 = 3 := by
  have h := interrupt_clears_state
    { nextStartTime := 100, active := [7], stopped := [] } 8 3 2 (by norm_num)
  exact ⟨h.1, h.2.1 7 (by simp), h.2.2⟩

/-- C1: the claim states that two identical finalized user utterances within
2 seconds yield only one transcript entry. On the source this fails: the
duplicate check inside the onTranscript callback reads the transcript state
variable captured by the callback's closure when the session started (the
callback is created once, in toggleSession), while appends go through the
functional updater and hence act on the live list. Within a session the check
therefore always consults the stale session-start snapshot — empty for a fresh
session — and both utterances are appended. Under the specification's reading
of the rule (duplicate check against the live transcript,
runTranscriptEventsSpec) the second utterance is suppressed, confirming the
stale closure as the point of divergence. -/
theorem duplicate_suppression_ineffective :
    (runTranscriptEvents [] initialTalkState
        [(Sender.user, "hello", true, 5000),
         (Sender.user, "hello", true, 6000)]).transcript =
      [{ id := 5000, sender := Sender.user, text := "hello" },
       { id := 6000, sender := Sender.user, text := "hello" }] ∧
    (runTranscriptEventsSpec initialTalkState
        [(Sender.user, "hello", true, 5000),
         (Sender.user, "hello", true, 6000)]).transcript =
      [{ id := 5000, sender := Sender.user, text := "hello" }] := by
  exact ⟨by decide, by decide⟩

theorem runTranscriptEvents_nonfinal_user (snap : List TranscriptItem)
    (st : TalkState) (texts : List String) (now : ℤ) :
    (runTranscriptEvents snap st
        (texts.map (fun t => (Sender.user, t, false, now)))).userBuffer
      = texts.foldl (fun acc t => acc ++ t) st.userBuffer := by
  induction texts generalizing st with
  | nil => rfl
  | cons t rest ih =>
      simp only [List.map_cons, runTranscriptEvents, onTranscriptEvent,
        List.foldl_cons]
      exact ih _

/-- C4: for every sender and every sequence of transcript fragments, non-final
fragment texts are appended to that sender's accumulation buffer in arrival
order (and mirrored to the live view) while the transcript is untouched; when
a final marker arrives, an Utterance whose text is the concatenation of the
accumulated fragments (the final fragment included) is appended exactly when
the buffer has non-whitespace content (and, for the user sender, passes the
duplicate check), and the buffer and live view are cleared regardless. The two
closed conjuncts check the fragments Hel / lo with isFinal false / true
producing the single Utterance Hello with empty buffers, and a
whitespace-only final producing no Utterance. -/
theorem fragment_accumulation :
    (∀ snap st text now,
        onTranscriptEvent snap st Sender.user text false now =
          { st with userBuffer := st.userBuffer ++ text,
                    streamingUser := st.userBuffer ++ text }) ∧
    (∀ snap st text now,
        onTranscriptEvent snap st Sender.jhuma text false now =
          { st with jhumaBuffer := st.jhumaBuffer ++ text,
                    streamingJhuma := st.jhumaBuffer ++ text }) ∧
    (∀ (snap : List TranscriptItem) (st : TalkState) (texts : List String)
        (now : ℤ),
        (runTranscriptEvents snap st
            (texts.map (fun t => (Sender.user, t, false, now)))).userBuffer
          = texts.foldl (fun acc t => acc ++ t) st.userBuffer) ∧
    (∀ snap st text now,
        onTranscriptEvent snap st Sender.user text true now =
          { st with
              transcript :=
                if trimNonempty (st.userBuffer ++ text) = true ∧
                   isNewUtterance snap (st.userBuffer ++ text) now = true then
                  st.transcript ++
                    [{ id := now, sender := Sender.user,
                       text := st.userBuffer ++ text }]
                else st.transcript,
              userBuffer := "", streamingUser := "" }) ∧
    (∀ snap st text now,
        onTranscriptEvent snap st Sender.jhuma text true now =
          { st with
              transcript :=
                if trimNonempty (st.jhumaBuffer ++ text) = true then
                  st.transcript ++
                    [{ id := now, sender := Sender.jhuma,
                       text := st.jhumaBuffer ++ text }]
                else st.transcript,
              jhumaBuffer := "", streamingJhuma := "" }) ∧
    runTranscriptEvents [] initialTalkState
        [(Sender.user, "Hel", false, 100), (Sender.user, "lo", true, 200)] =
      { transcript := [{ id := 200, sender := Sender.user, text := "Hello" }],
        userBuffer := "", jhumaBuffer := "",
        streamingUser := "", streamingJhuma := "" } ∧
    (runTranscriptEvents [] initialTalkState
        [(Sender.user, " ", false, 1), (Sender.user, "  ", true, 2)]).transcript
      = [] := by
  refine ⟨?_, ?_, ?_, ?_, ?_, by decide, by decide⟩
  · intro snap st text now
    simp [onTranscriptEvent]
  · intro snap st text now
    simp [onTranscriptEvent]
  · intro snap st texts now
    exact runTranscriptEvents_nonfinal_user snap st texts now
  · intro snap st text now
    by_cases h1 : trimNonempty (st.userBuffer ++ text) = true
    · by_cases h2 : isNewUtterance snap (st.userBuffer ++ text) now = true
      · simp [onTranscriptEvent, h1, h2]
      · simp [onTranscriptEvent, h1, h2]
    · simp [onTranscriptEvent, h1]
  · intro snap st text now
    by_cases h1 : trimNonempty (st.jhumaBuffer ++ text) = true
    · simp [onTranscriptEvent, h1]
    · simp [onTranscriptEvent, h1]

/-- C8: teardown is idempotent. Redundant cleanup is a no-op in general;
calling disconnect twice in a row, or disconnect followed by a spontaneous
remote onclose, leaves the state of the first disconnect untouched; and for a
session not already tearing down, a single disconnect runs each release side
effect exactly once — one microphone track-stop pass, one close() per audio
context still running, every pending source stopped and the pending set
cleared. -/
theorem teardown_idempotent (st : ConnState) :
    cleanup (cleanup st) = cleanup st ∧
    disconnect (disconnect st) = disconnect st ∧
    (st.isCleaningUp = false →
      oncloseHandler (disconnect st) = disconnect st ∧
      (disconnect st).trackStopRuns = st.trackStopRuns + 1 ∧
      (st.inputCtx = CtxState.running →
        (disconnect st).inputCloseCalls = st.inputCloseCalls + 1 ∧
        (disconnect st).inputCtx = CtxState.closed) ∧
      (st.outputCtx = CtxState.running →
        (disconnect st).outputCloseCalls = st.outputCloseCalls + 1 ∧
        (disconnect st).outputCtx = CtxState.closed) ∧
      (disconnect st).activeSources = [] ∧
      (disconnect st).stoppedSources = st.stoppedSources ++ st.activeSources) := by
  have hcc : cleanup (cleanup st) = cleanup st := by
    by_cases h : st.isCleaningUp
    · simp [cleanup, h]
    · simp [cleanup, h]
  refine ⟨hcc, hcc, ?_⟩
  intro h
  refine ⟨?_, ?_, ?_, ?_, ?_, ?_⟩
  · simp [oncloseHandler, disconnect, cleanup, h]
  · simp [disconnect, cleanup, h]
  · intro hin
    constructor <;> simp [disconnect, cleanup, safeCloseAudioContext, h, hin]
  · intro hout
    constructor <;> simp [disconnect, cleanup, safeCloseAudioContext, h, hout]
  · simp [disconnect, cleanup, h]
  · simp [disconnect, cleanup, h]

/-- C8 witness: a live session (socket open, one pending source, both contexts
running, no release side effect run yet): disconnecting twice equals
disconnecting once, a remote close after disconnect changes nothing, and the
single disconnect ran the track-stop pass and each context close exactly
once. -/
theorem teardown_idempotent_witness :
    disconnect (disconnect
        { isCleaningUp := false, isSocketOpen := true, activeSources := [3],
          stoppedSources := [], trackStopRuns := 0, inputCtx := CtxState.running,
          outputCtx := CtxState.running, inputCloseCalls := 0,
          outputCloseCalls := 0 })
      = disconnect
        { isCleaningUp := false, isSocketOpen := true, activeSources := [3],
          stoppedSources := [], trackStopRuns := 0, inputCtx := CtxState.running,
          outputCtx := CtxState.running, inputCloseCalls := 0,
          outputCloseCalls := 0 } ∧
    oncloseHandler (disconnect
        { isCleaningUp := false, isSocketOpen := true, activeSources := [3],
          stoppedSources := [], trackStopRuns := 0, inputCtx := CtxState.running,
          outputCtx := CtxState.running, inputCloseCalls := 0,
          outputCloseCalls := 0 })
      = disconnect
        { isCleaningUp := false, isSocketOpen := true, activeSources := [3],
          stoppedSources := [], trackStopRuns := 0, inputCtx := CtxState.running,
          outputCtx := CtxState.running, inputCloseCalls := 0,
          outputCloseCalls := 0 } ∧
    (disconnect
        { isCleaningUp := false, isSocketOpen := true, activeSources := [3],
          stoppedSources := [], trackStopRuns := 0, inputCtx := CtxState.running,
          outputCtx := CtxState.running, inputCloseCalls := 0,
          outputCloseCalls := 0 }).trackStopRuns = 0 + 1 ∧
    (disconnect
        { isCleaningUp := false, isSocketOpen := true, activeSources := [3],
          stoppedSources := [], trackStopRuns := 0, inputCtx := CtxState.running,
          outputCtx := CtxState.running, inputCloseCalls := 0,
          outputCloseCalls := 0 }).inputCloseCalls = 0 + 1 ∧
    (disconnect
        { isCleaningUp := false, isSocketOpen := true, activeSources := [3],
          stoppedSources := [], trackStopRuns := 0, inputCtx := CtxState.running,
          outputCtx := CtxState.running, inputCloseCalls := 0,
          outputCloseCalls := 0 }).outputCloseCalls = 0 + 1 := by
  have h := teardown_idempotent
    { isCleaningUp := false, isSocketOpen := true, activeSources := [3],
      stoppedSources := [], trackStopRuns := 0, inputCtx := CtxState.running,
      outputCtx := CtxState.running, inputCloseCalls := 0,
      outputCloseCalls := 0 }
  have h3 := h.2.2 rfl
  exact ⟨h.2.1, h3.1, h3.2.1, (h3.2.2.1 rfl).1, (h3.2.2.2.1 rfl).1⟩

/-- C2 counterexample: decoding does not succeed for every byte sequence. On
the one-byte input [0] the Int16Array construction raises a RangeError (byte
length not a multiple of 2) instead of silently truncating the trailing
partial sample, so the decode is none. -/
theorem processPcmData_odd_length_raises : processPcmData [0] 1 = none := by
  decide

/-- C2 amended: decoding succeeds exactly when the byte length is even and the
input is non-empty (an odd trailing byte raises a RangeError in the Int16Array
construction; a zero frame count raises a NotSupportedError in createBuffer);
on success with one channel, bytes are interpreted as signed 16-bit
little-endian samples, each normalized by dividing by 32768, and the frame
length is byteLength / 2. -/
theorem processPcmData_even_decode (data : List ℕ) :
    ((processPcmData data 1).isSome ↔ data.length % 2 = 0 ∧ data ≠ []) ∧
    (data.length % 2 = 0 → data ≠ [] →
      processPcmData data 1 =
        some [(List.range (data.length / 2)).map (fun i =>
          ((int16OfBytes (data.getD (2 * i) 0) (data.getD (2 * i + 1) 0) : ℤ) : ℚ)
            / 32768)]) := by
  constructor
  · constructor
    · intro hs
      by_cases hp : data.length % 2 = 0
      · refine ⟨hp, ?_⟩
        intro hnil
        subst hnil
        exact absurd hs (by decide)
      · simp [processPcmData, hp] at hs
    · rintro ⟨hp, hnil⟩
      have hlen : data.length ≠ 0 := by
        intro h0
        exact hnil (List.length_eq_zero.mp h0)
      have h2 : ¬ data.length / 2 = 0 := by omega
      simp [processPcmData, hp, bytesToInt16List_length, h2]
  · intro hp hnil
    have hlen : data.length ≠ 0 := by
      intro h0
      exact hnil (List.length_eq_zero.mp h0)
    have h2 : ¬ data.length / 2 = 0 := by omega
    have hrange1 : List.range 1 = [0] := rfl
    simp only [processPcmData, hp, bytesToInt16List_length, Nat.div_one,
      if_neg (show ¬ data.length % 2 ≠ 0 from fun hc => hc hp), if_neg h2,
      hrange1, List.map_cons, List.map_nil]
    refine congrArg some (congrArg (fun l => [l]) ?_)
    refine List.map_congr_left ?_
    intro i hi
    have hilt : i < (bytesToInt16List data).length := by
      rw [bytesToInt16List_length]
      simpa using hi
    have := bytesToInt16List_getD data i hilt
    simp only [Nat.mul_one, Nat.add_zero]
    rw [this]

/-- C2 witness: the two-byte sequence [0, 128] is the little-endian int16
value -32768 and decodes to the single-sample mono frame [-1]. -/
theorem processPcmData_even_decode_witness :
    processPcmData [0, 128] 1 = some [[(-1 : ℚ)]] := by
  have h := (processPcmData_even_decode [0, 128]).2 (by decide) (by decide)
  rw [h]
  simp [List.range_succ, int16OfBytes]
  norm_num

/-- C3 counterexample: one quantization step does not bound the round-trip
error. The in-range sample 65535/65536 encodes (scale by 32767, truncate) to
32766 and decodes (divide by 32768) to 32766/32768; the error is 3/65536,
strictly more than 1/32768. The asymmetry — non-negative samples scaled by
32767 but decoded by 32768 — costs up to one extra step near +1. -/
theorem pcm_roundtrip_exceeds_one_step :
    1 / 32768 < |decodeSample (encodeSample (65535 / 65536)) - 65535 / 65536| := by
  have hc : max (-1 : ℚ) (min 1 (65535 / 65536)) = 65535 / 65536 := by
    rw [min_eq_right (by norm_num : (65535 / 65536 : ℚ) ≤ 1)]
    exact max_eq_right (by norm_num)
  have hfloor : ⌊(65535 / 65536 : ℚ) * 32767⌋ = 32766 := by
    rw [Int.floor_eq_iff]
    constructor <;> norm_num
  have henc : encodeSample (65535 / 65536) = 32766 := by
    simp only [encodeSample, hc]
    rw [if_neg (by norm_num : ¬ (65535 / 65536 : ℚ) < 0)]
    rw [jsTrunc, if_pos (by positivity), hfloor, toInt16Wrap]
    decide
  rw [henc]
  simp only [decodeSample]
  rw [abs_sub_comm, abs_of_nonneg (by norm_num)]
  norm_num

/-- C3 amended: for every sample in [-1, 1], encoding to 16-bit PCM (negative
samples scaled by 32768, non-negative by 32767, truncating and clamping) and
decoding back (divide by 32768) yields a value within two quantization steps
(2/32768) of the original; the widening from one step to two is forced by the
counterexample near +1. -/
theorem pcm_roundtrip_two_steps (s : ℚ) (h1 : -1 ≤ s) (h2 : s ≤ 1) :
    |decodeSample (encodeSample s) - s| ≤ 2 / 32768 := by
  have hc : max (-1 : ℚ) (min 1 s) = s := by
    rw [min_eq_right h2]
    exact max_eq_right h1
  simp only [encodeSample, hc]
  by_cases hneg : s < 0
  · rw [if_pos hneg, jsTrunc,
      if_neg (by nlinarith : ¬ (0 : ℚ) ≤ s * 32768)]
    have hcl : s * 32768 ≤ ((⌈s * 32768⌉ : ℤ) : ℚ) := Int.le_ceil _
    have hcu : ((⌈s * 32768⌉ : ℤ) : ℚ) < s * 32768 + 1 := Int.ceil_lt_add_one _
    have hlo : (-32768 : ℤ) ≤ ⌈s * 32768⌉ := by
      have hq : (-32768 : ℚ) ≤ s * 32768 := by nlinarith
      exact_mod_cast le_trans hq hcl
    have hhi : ⌈s * 32768⌉ ≤ 0 := by
      apply Int.ceil_le.mpr
      push_cast
      nlinarith
    have hwrap : toInt16Wrap ⌈s * 32768⌉ = ⌈s * 32768⌉ := by
      rw [toInt16Wrap,
        Int.emod_eq_of_lt (by omega) (by omega)]
      omega
    rw [hwrap, decodeSample, abs_le]
    constructor
    · linarith
    · linarith
  · rw [if_neg hneg, jsTrunc,
      if_pos (by nlinarith [not_lt.mp hneg] : (0 : ℚ) ≤ s * 32767)]
    have hs0 : (0 : ℚ) ≤ s := not_lt.mp hneg
    have hfl : ((⌊s * 32767⌋ : ℤ) : ℚ) ≤ s * 32767 := Int.floor_le _
    have hfu : s * 32767 - 1 < ((⌊s * 32767⌋ : ℤ) : ℚ) := Int.sub_one_lt_floor _
    have hge0 : 0 ≤ ⌊s * 32767⌋ := Int.floor_nonneg.mpr (by nlinarith)
    have hle : ⌊s * 32767⌋ ≤ 32767 := by
      have hb : s * 32767 ≤ ((32767 : ℤ) : ℚ) := by push_cast; nlinarith
      calc ⌊s * 32767⌋ ≤ ⌊((32767 : ℤ) : ℚ)⌋ := Int.floor_le_floor hb
        _ = 32767 := Int.floor_intCast _
    have hwrap : toInt16Wrap ⌊s * 32767⌋ = ⌊s * 32767⌋ := by
      rw [toInt16Wrap,
        Int.emod_eq_of_lt (by omega) (by omega)]
      omega
    rw [hwrap, decodeSample, abs_le]
    constructor
    · linarith
    · linarith

/-- C3 witness: the sample 1/2 is in range and its round-trip error is within
two quantization steps. -/
theorem pcm_roundtrip_two_steps_witness :
    |decodeSample (encodeSample (1 / 2)) - 1 / 2| ≤ 2 / 32768 :=
  pcm_roundtrip_two_steps (1 / 2) (by norm_num) (by norm_num)

theorem sum_map_range' (f : ℕ → ℚ) (a n : ℕ) :
    ((List.range' a n).map f).sum = ∑ j in Finset.Ico a (a + n), f j := by
  induction n generalizing a with
  | zero => simp
  | succ n ih =>
      rw [List.range'_succ, List.map_cons, List.sum_cons, ih (a + 1)]
      have hab : a < a + (n + 1) := by omega
      rw [Finset.sum_eq_sum_Ico_succ_bot hab]
      have harg : a + 1 + n = a + (n + 1) := by omega
      rw [harg]

/-- C5: for every input buffer and every pair of distinct rates, output sample
i of the downsampler is the arithmetic mean of the input samples in the window
floor(i * ratio) up to floor((i + 1) * ratio) exclusive, clipped to the input
length, where ratio = inputRate / outputRate; when that window holds zero
samples, output sample i is the single input sample at index
floor(i * ratio). -/
theorem downsample_box_filter (buffer : List ℚ) (inputRate outputRate : ℚ)
    (hne : inputRate ≠ outputRate) (i : ℕ)
    (hi : i < (downsampleBuffer buffer inputRate outputRate).length) :
    (downsampleBuffer buffer inputRate outputRate).getD i 0 =
      if (⌊(i : ℚ) * (inputRate / outputRate)⌋).toNat <
          min ((⌊((i : ℚ) + 1) * (inputRate / outputRate)⌋).toNat)
            buffer.length then
        (∑ j in Finset.Ico ((⌊(i : ℚ) * (inputRate / outputRate)⌋).toNat)
            (min ((⌊((i : ℚ) + 1) * (inputRate / outputRate)⌋).toNat)
              buffer.length), buffer.getD j 0) /
          ((min ((⌊((i : ℚ) + 1) * (inputRate / outputRate)⌋).toNat)
              buffer.length
            - (⌊(i : ℚ) * (inputRate / outputRate)⌋).toNat : ℕ) : ℚ)
      else buffer.getD ((⌊(i : ℚ) * (inputRate / outputRate)⌋).toNat) 0 := by
  have hne' : ¬ outputRate = inputRate := fun h => hne h.symm
  simp only [downsampleBuffer, if_neg hne'] at hi ⊢
  rw [List.length_map, List.length_range] at hi
  rw [List.getD_eq_getElem?_getD, List.getElem?_map,
    List.getElem?_range hi, Option.map_some', Option.getD_some]
  set offset := (⌊(i : ℚ) * (inputRate / outputRate)⌋).toNat with hoffset
  set nextOffset := (⌊((i : ℚ) + 1) * (inputRate / outputRate)⌋).toNat
    with hnextOffset
  set stop := min nextOffset buffer.length with hstop
  by_cases hlt : offset < stop
  · rw [if_pos (by omega : 0 < stop - offset), if_pos hlt]
    rw [sum_map_range' (fun j => buffer.getD j 0) offset (stop - offset)]
    have harg : offset + (stop - offset) = stop := by omega
    rw [harg]
  · rw [if_neg (by omega : ¬ 0 < stop - offset), if_neg hlt]

/-- C5 witness: six samples downsampled from 48 kHz to 16 kHz (ratio 3); the
second output sample is the mean of input samples at indices 3, 4, 5,
namely 5. -/
theorem downsample_box_filter_witness :
    (downsampleBuffer [1, 2, 3, 4, 5, 6] 48000 16000).getD 1 0 = 5 := by
  have hlen : 1 < (downsampleBuffer [1, 2, 3, 4, 5, 6] 48000 16000).length := by
    rw [downsampleBuffer, if_neg (by norm_num : ¬ (16000 : ℚ) = 48000)]
    rw [List.length_map, List.length_range]
    have e : ((([1, 2, 3, 4, 5, 6] : List ℚ).length : ℕ) : ℚ) / (48000 / 16000)
        + 1 / 2 = (5 : ℚ) / 2 := by norm_num
    rw [e]
    have ef : ⌊(5 : ℚ) / 2⌋ = 2 := by
      rw [Int.floor_eq_iff]
      constructor <;> norm_num
    rw [ef]
    norm_num
  have h := downsample_box_filter [1, 2, 3, 4, 5, 6] 48000 16000
    (by norm_num) 1 hlen
  have e1 : (⌊((1 : ℕ) : ℚ) * (48000 / 16000)⌋).toNat = 3 := by
    have e : ((1 : ℕ) : ℚ) * (48000 / 16000) = ((3 : ℤ) : ℚ) := by norm_num
    rw [e, Int.floor_intCast]
    rfl
  have e2 : (⌊(((1 : ℕ) : ℚ) + 1) * (48000 / 16000)⌋).toNat = 6 := by
    have e : (((1 : ℕ) : ℚ) + 1) * (48000 / 16000) = ((6 : ℤ) : ℚ) := by
      norm_num
    rw [e, Int.floor_intCast]
    rfl
  rw [h, e1, e2]
  norm_num [Finset.sum_Ico_eq_sum_range, Finset.sum_range_succ]

end TrafficAssist
